import Mathlib

/-!
Verification of the detection-alignment core of `xaitk_saliency`
(`impls/gen_object_detector_blackbox_sal/occlusion_based.py`).

Scores and coordinates (Python floats) are modelled as rationals; a Python
dict is modelled as an association list whose key order is the dict's
insertion/iteration order; a raised exception is modelled as `none`.
-/

/-- Pointwise combination of three lists, truncating at the shortest
(used to model horizontal concatenation of per-detection columns). -/
def zip3With (f : α → β → γ → δ) : List α → List β → List γ → List δ
  | a :: as, b :: bs, c :: cs => f a b c :: zip3With f as bs cs
  | _, _, _ => []

/-- Python's `max` over a sequence: `none` on the empty sequence
(Python raises `ValueError` there), otherwise the greatest element. -/
def pyMax [LinearOrder α] : List α → Option α
  | [] => none
  | a :: rest => some (rest.foldl max a)

/-- Python's `list.index`: index of the first occurrence of `v`
(length of the list if absent; Python raises there, but every use below is
guarded so that `v` occurs). -/
def pyindex (s : List ℚ) (v : ℚ) : ℕ :=
  match s with
  | [] => 0
  | a :: rest => if a = v then 0 else pyindex rest v + 1

/-- Dict lookup `m[l]`: first value bound to key `l`, `none` models `KeyError`. -/
def dictLookup [DecidableEq α] (m : List (α × ℚ)) (l : α) : Option ℚ :=
  match m with
  | [] => none
  | (k, v) :: rest => if k = l then some v else dictLookup rest l

/-- `scores = []; for label in labels: scores.append(score_dict[label])`
(occlusion_based.py lines 163-165): per-label lookup, failing on the first
missing label. -/
def lookupScores [DecidableEq α] (labels : List α) (m : List (α × ℚ)) :
    Option (List ℚ) :=
  match labels with
  | [] => some []
  | l :: rest =>
    match dictLookup m l, lookupScores rest m with
    | some v, some vs => some (v :: vs)
    | _, _ => none

/-- A detection: an axis-aligned bounding box `(minX, minY, maxX, maxY)`
paired with a score map from class label to score. -/
abbrev Det (α : Type) : Type := (ℚ × ℚ × ℚ × ℚ) × List (α × ℚ)

/-- `[*bbox.min_vertex, *bbox.max_vertex]` (line 173). -/
def bboxRow (b : ℚ × ℚ × ℚ × ℚ) : List ℚ := [b.1, b.2.1, b.2.2.1, b.2.2.2]

/-- Single-dominant-class normalization (occlusion_based.py lines 148-171):
objectness defaults to `1.0`; if exactly one class score is strictly
positive, the objectness becomes `max(scores)` and the first occurrence of
that maximum is rewritten to `1`. -/
def normalizeScores (scores : List ℚ) : ℚ × List ℚ :=
  if (scores.filter fun x => 0 < x).length = 1 then
    match pyMax scores with
    | none => (1, scores)
    | some conf => (conf, scores.set (pyindex scores conf) 1)
  else
    (1, scores)

/-- Modelled from the spec: `format_detection` from
`xaitk_saliency.utils.detection` is not included under the provided sources.
Per spec section 4.1 it horizontally concatenates
`[bbox(4), objectness(1), classScores(C)]` per detection, defaults
objectness to `1.0` for every detection when omitted, and fails when the
counts of boxes, score rows, and objectness entries are not all equal. -/
def format_detection (bboxes : List (List ℚ)) (scores : List (List ℚ))
    (objectness : Option (List ℚ)) : Option (List (List ℚ)) :=
  let obj := objectness.getD (List.replicate bboxes.length 1)
  if bboxes.length = scores.length ∧ scores.length = obj.length then
    some (zip3With (fun b o s => b ++ o :: s) bboxes obj scores)
  else
    none

/-- Per-image accumulators `img_bboxes`, `img_scores`, `img_objectness`
(lines 140-146), kept as lists of rows / entries. -/
structure ImgAcc where
  bboxes : List (List ℚ)
  scores : List (List ℚ)
  objectness : List ℚ
deriving DecidableEq

/-- Body of the inner `for det in img_dets` loop (lines 148-175).
If no labels are known yet (`num_classes == 0`), the current detection's
score-map keys become the canonical labels, every previously assembled
image matrix is replaced by an empty one, and the score accumulator is
reshaped to zero rows; then the scores are looked up in canonical label
order (a missing key is a `KeyError`, i.e. `none`), normalized, and the
bbox row, score row and objectness entry are appended. -/
def detStep [DecidableEq α] (labels : List α) (prev : List (List (List ℚ)))
    (acc : ImgAcc) (det : Det α) :
    Option (List α × List (List (List ℚ)) × ImgAcc) :=
  let labels' := if labels.isEmpty then det.2.map Prod.fst else labels
  let prev' := if labels.isEmpty then
      List.replicate prev.length ([] : List (List ℚ)) else prev
  let acc' := if labels.isEmpty then { acc with scores := [] } else acc
  match lookupScores labels' det.2 with
  | none => none
  | some s =>
    let os := normalizeScores s
    some (labels', prev',
      { bboxes := acc'.bboxes ++ [bboxRow det.1],
        scores := acc'.scores ++ [os.2],
        objectness := acc'.objectness ++ [os.1] })

/-- One iteration of the outer `for img_idx, img_dets in enumerate(dets)`
loop (lines 138-177): run the detection loop, then append
`format_detection(img_bboxes, img_scores, img_objectness)`. -/
def imageStep [DecidableEq α] (labels : List α) (prev : List (List (List ℚ)))
    (img_dets : List (Det α)) : Option (List α × List (List (List ℚ))) :=
  match img_dets.foldlM (fun st det => detStep st.1 st.2.1 st.2.2 det)
      ((labels, prev, ⟨[], [], []⟩) : List α × List (List (List ℚ)) × ImgAcc) with
  | none => none
  | some (labels1, prev1, acc) =>
    match format_detection acc.bboxes acc.scores (some acc.objectness) with
    | none => none
    | some mat => some (labels1, prev1 ++ [mat])

/-- The label-discovery and matrix-assembly phase of
`_dets_to_formatted_mat` (lines 135-177): final canonical labels and the
list of per-image detection matrices, before padding. -/
def buildMats [DecidableEq α] (dets : List (List (Det α))) :
    Option (List α × List (List (List ℚ))) :=
  dets.foldlM (fun st img => imageStep st.1 st.2 img) ([], [])

/-- `pad_row = np.ones(4+1+num_classes); pad_row[4] = 0` (lines 182-184). -/
def padRow (num_classes : ℕ) : List ℚ :=
  (List.replicate (4 + 1 + num_classes) 1).set 4 0

/-- `_dets_to_formatted_mat` (lines 116-189): assemble the per-image
matrices, compute `max_dets = max(num_dets)` (Python `max` raises on an
empty batch), and pad every matrix with sentinel rows up to `max_dets`.
The result carries `num_classes` together with the list of padded
per-image matrices (the tensor's slices). -/
def dets_to_formatted_mat [DecidableEq α] (dets : List (List (Det α))) :
    Option (ℕ × List (List (List ℚ))) :=
  match buildMats dets with
  | none => none
  | some (labels, mats) =>
    match pyMax (mats.map List.length) with
    | none => none
    | some max_dets =>
      some (labels.length,
        mats.map fun m => m ++ List.replicate (max_dets - m.length) (padRow labels.length))

/-- The two detection matrices assembled by `PerturbationOcclusion._generate`
(lines 55-82): the reference matrix comes from `format_detection` applied to
the caller-supplied numeric `bboxes`/`scores`/`objectness`, while the
occluded tensor comes from `_dets_to_formatted_mat` applied to the
black-box detector's output on the occluded images; both are then handed to
the saliency generator. -/
def generate_mats [DecidableEq α] (bboxes scores : List (List ℚ))
    (objectness : Option (List ℚ)) (pert_dets : List (List (Det α))) :
    Option (List (List ℚ) × ℕ × List (List (List ℚ))) :=
  match format_detection bboxes scores objectness with
  | none => none
  | some ref =>
    match dets_to_formatted_mat pert_dets with
    | none => none
    | some pert => some (ref, pert)

/-- The bbox row, objectness and normalized score row contributed by one
detection under a fixed label list (reference form of the loop body). -/
def detParts [DecidableEq α] (labels : List α) (d : Det α) :
    Option (List ℚ × ℚ × List ℚ) :=
  match lookupScores labels d.2 with
  | none => none
  | some s => some (bboxRow d.1, (normalizeScores s).1, (normalizeScores s).2)

/-- `detParts` mapped over an image's detections, failing if any fails. -/
def detPartsList [DecidableEq α] (labels : List α) :
    List (Det α) → Option (List (List ℚ × ℚ × List ℚ))
  | [] => some []
  | d :: rest =>
    match detParts labels d, detPartsList labels rest with
    | some p, some ps => some (p :: ps)
    | _, _ => none

/-- The matrix an image's detections yield under a fixed label list:
one row `bbox ++ objectness :: scores` per detection, in order. -/
def imageRows [DecidableEq α] (labels : List α) (img : List (Det α)) :
    Option (List (List ℚ)) :=
  match detPartsList labels img with
  | none => none
  | some ps => some (ps.map fun p => p.1 ++ p.2.1 :: p.2.2)

/-- `imageRows` mapped over a batch, failing if any image fails. -/
def matsList [DecidableEq α] (labels : List α) :
    List (List (Det α)) → Option (List (List (List ℚ)))
  | [] => some []
  | img :: rest =>
    match imageRows labels img, matsList labels rest with
    | some m, some ms => some (m :: ms)
    | _, _ => none

/-- Keys of the first detection in a detection sequence whose score map is
non-empty (`[]` if there is none). -/
def firstKeysDets [DecidableEq α] : List (Det α) → List α
  | [] => []
  | d :: rest =>
    if (d.2.map Prod.fst).isEmpty then firstKeysDets rest else d.2.map Prod.fst

/-- Keys of the first detection in a batch, scanning images in order and
detections within an image in order, whose score map is non-empty. -/
def firstKeysBatch [DecidableEq α] : List (List (Det α)) → List α
  | [] => []
  | img :: rest =>
    if (firstKeysDets img).isEmpty then firstKeysBatch rest else firstKeysDets img

section MaxLemmas

variable [LinearOrder β]

theorem foldl_max_init_le (l : List β) : ∀ a : β, a ≤ l.foldl max a := by
  induction l with
  | nil => intro a; simp
  | cons b t ih =>
    intro a
    calc a ≤ max a b := le_max_left a b
    _ ≤ t.foldl max (max a b) := ih (max a b)

theorem le_foldl_max (l : List β) : ∀ a x : β, x ∈ l → x ≤ l.foldl max a := by
  induction l with
  | nil => intro a x hx; simp at hx
  | cons b t ih =>
    intro a x hx
    rcases List.mem_cons.mp hx with h | h
    · subst h
      calc x ≤ max a x := le_max_right a x
      _ ≤ t.foldl max (max a x) := foldl_max_init_le t (max a x)
    · exact ih (max a b) x h

theorem foldl_max_mem (l : List β) : ∀ a : β, l.foldl max a = a ∨ l.foldl max a ∈ l := by
  induction l with
  | nil => intro a; left; rfl
  | cons b t ih =>
    intro a
    rcases ih (max a b) with h | h
    · rcases max_choice a b with hm | hm
      · left; simp only [List.foldl_cons]; rw [h, hm]
      · right; simp only [List.foldl_cons]; rw [h, hm]; exact List.mem_cons_self b t
    · right
      exact List.mem_cons_of_mem b h

theorem pyMax_mem {l : List β} {m : β} (h : pyMax l = some m) : m ∈ l := by
  cases l with
  | nil => simp [pyMax] at h
  | cons a t =>
    simp only [pyMax, Option.some.injEq] at h
    rcases foldl_max_mem t a with h2 | h2
    · rw [← h, h2]; exact List.mem_cons_self a t
    · rw [← h]; exact List.mem_cons_of_mem a h2

theorem le_pyMax {l : List β} {m : β} (h : pyMax l = some m) :
    ∀ x ∈ l, x ≤ m := by
  cases l with
  | nil => simp [pyMax] at h
  | cons a t =>
    simp only [pyMax, Option.some.injEq] at h
    intro x hx
    rcases List.mem_cons.mp hx with h2 | h2
    · subst h2; rw [← h]; exact foldl_max_init_le t x
    · rw [← h]; exact le_foldl_max t a x h2

theorem pyMax_isSome {l : List β} (h : l ≠ []) : ∃ m, pyMax l = some m := by
  cases l with
  | nil => exact absurd rfl h
  | cons a t => exact ⟨t.foldl max a, rfl⟩

end MaxLemmas

section LookupLemmas

variable {α : Type} [DecidableEq α]

theorem dictLookup_eq_none {m : List (α × ℚ)} {l : α}
    (h : ∀ p ∈ m, p.1 ≠ l) : dictLookup m l = none := by
  induction m with
  | nil => rfl
  | cons p rest ih =>
    simp only [dictLookup, if_neg (h p (List.mem_cons_self p rest))]
    exact ih fun q hq => h q (List.mem_cons_of_mem p hq)

theorem dictLookup_append {m extra : List (α × ℚ)} {l : α}
    (h : ∀ p ∈ extra, p.1 ≠ l) :
    dictLookup (m ++ extra) l = dictLookup m l := by
  induction m with
  | nil => simpa using dictLookup_eq_none h
  | cons p rest ih =>
    by_cases hp : p.1 = l
    · simp [dictLookup, hp]
    · simpa [dictLookup, hp] using ih

theorem dictLookup_isSome_of_mem {m : List (α × ℚ)} {l : α}
    (h : l ∈ m.map Prod.fst) : (dictLookup m l).isSome := by
  induction m with
  | nil => simp at h
  | cons p rest ih =>
    by_cases hp : p.1 = l
    · simp [dictLookup, hp]
    · rw [List.map_cons, List.mem_cons] at h
      rcases h with h | h
      · exact absurd h.symm hp
      · simpa [dictLookup, hp] using ih h

theorem lookupScores_eq_none {labels : List α} {m : List (α × ℚ)} {l : α}
    (hl : l ∈ labels) (h : dictLookup m l = none) :
    lookupScores labels m = none := by
  induction labels with
  | nil => simp at hl
  | cons a rest ih =>
    rcases List.mem_cons.mp hl with h2 | h2
    · subst h2; simp [lookupScores, h]
    · simp only [lookupScores, ih h2]
      cases dictLookup m a <;> rfl

theorem lookupScores_isSome {labels : List α} {m : List (α × ℚ)}
    (h : ∀ l ∈ labels, (dictLookup m l).isSome) :
    ∃ s, lookupScores labels m = some s := by
  induction labels with
  | nil => exact ⟨[], rfl⟩
  | cons a rest ih =>
    obtain ⟨v, hv⟩ := Option.isSome_iff_exists.mp (h a (List.mem_cons_self a rest))
    obtain ⟨s, hs⟩ := ih fun l hl => h l (List.mem_cons_of_mem a hl)
    exact ⟨v :: s, by simp [lookupScores, hv, hs]⟩

theorem lookupScores_append {labels : List α} {m extra : List (α × ℚ)}
    (h : ∀ p ∈ extra, p.1 ∉ labels) :
    lookupScores labels (m ++ extra) = lookupScores labels m := by
  induction labels with
  | nil => rfl
  | cons a rest ih =>
    have ha : dictLookup (m ++ extra) a = dictLookup m a :=
      dictLookup_append fun p hp heq => h p hp (heq ▸ List.mem_cons_self a rest)
    rw [lookupScores, lookupScores, ha,
      ih fun p hp hmem => h p hp (List.mem_cons_of_mem a hmem)]

theorem lookupScores_keys (m : List (α × ℚ)) :
    ∃ s, lookupScores (m.map Prod.fst) m = some s :=
  lookupScores_isSome fun _ hl => dictLookup_isSome_of_mem hl

end LookupLemmas

section NormalizeLemmas

theorem filterPos_one_decomp {s : List ℚ}
    (h : (s.filter fun x => 0 < x).length = 1) :
    ∃ pre x post, s = pre ++ x :: post ∧ 0 < x ∧
      (∀ y ∈ pre, ¬ 0 < y) ∧ (∀ y ∈ post, ¬ 0 < y) := by
  induction s with
  | nil => simp at h
  | cons a t ih =>
    by_cases ha : 0 < a
    · rw [List.filter_cons_of_pos (by simpa using ha), List.length_cons,
        Nat.add_left_eq_self] at h
      have ht : ∀ y ∈ t, ¬ 0 < y := by
        have h0 := List.length_eq_zero.mp h
        intro y hy hpos
        have hmem : y ∈ t.filter fun x => 0 < x :=
          List.mem_filter.mpr ⟨hy, by simpa using hpos⟩
        rw [h0] at hmem
        simp at hmem
      exact ⟨[], a, t, by simp, ha, by simp, ht⟩
    · rw [List.filter_cons_of_neg (by simpa using ha)] at h
      obtain ⟨pre, x, post, hs, hx, hpre, hpost⟩ := ih h
      refine ⟨a :: pre, x, post, by simp [hs], hx, ?_, hpost⟩
      intro y hy
      rcases List.mem_cons.mp hy with h2 | h2
      · subst h2; exact ha
      · exact hpre y h2

theorem filterPos_one_of_decomp (pre post : List ℚ) (x : ℚ) (hx : 0 < x)
    (hpre : ∀ y ∈ pre, ¬ 0 < y) (hpost : ∀ y ∈ post, ¬ 0 < y) :
    ((pre ++ x :: post).filter fun v => 0 < v).length = 1 := by
  rw [List.filter_append, List.filter_cons_of_pos (by simpa using hx)]
  rw [List.filter_eq_nil_iff.mpr (by simpa using hpre),
    List.filter_eq_nil_iff.mpr (by simpa using hpost)]
  rfl

theorem pyMax_decomp (pre post : List ℚ) (x : ℚ) (hx : 0 < x)
    (hpre : ∀ y ∈ pre, ¬ 0 < y) (hpost : ∀ y ∈ post, ¬ 0 < y) :
    pyMax (pre ++ x :: post) = some x := by
  have hne : pre ++ x :: post ≠ [] := by simp
  obtain ⟨m, hm⟩ := pyMax_isSome hne
  have hmem := pyMax_mem hm
  have hxm : x ≤ m := le_pyMax hm x (by simp)
  have hmx : m ≤ x := by
    rcases List.mem_append.mp hmem with h | h
    · exact le_trans (le_of_not_lt (hpre m h)) (le_of_lt hx)
    · rcases List.mem_cons.mp h with h | h
      · exact le_of_eq h
      · exact le_trans (le_of_not_lt (hpost m h)) (le_of_lt hx)
  rw [hm, le_antisymm hmx hxm]

theorem pyindex_decomp (x : ℚ) (post : List ℚ) :
    ∀ pre : List ℚ, (∀ y ∈ pre, y ≠ x) →
      pyindex (pre ++ x :: post) x = pre.length
  | [], _ => by simp [pyindex]
  | a :: pre, h => by
    have ha : a ≠ x := h a (List.mem_cons_self a pre)
    simp only [List.cons_append, pyindex, if_neg ha, List.length_cons,
      List.append_eq]
    rw [pyindex_decomp x post pre fun y hy => h y (List.mem_cons_of_mem a hy)]

theorem set_decomp (v x : ℚ) (post : List ℚ) :
    ∀ pre : List ℚ, (pre ++ x :: post).set pre.length v = pre ++ v :: post
  | [] => by simp
  | a :: pre => by
    simp only [List.cons_append, List.length_cons, List.set_cons_succ]
    rw [set_decomp v x post pre]

theorem normalizeScores_single (pre post : List ℚ) (x : ℚ) (hx : 0 < x)
    (hpre : ∀ y ∈ pre, ¬ 0 < y) (hpost : ∀ y ∈ post, ¬ 0 < y) :
    normalizeScores (pre ++ x :: post) = (x, pre ++ 1 :: post) := by
  unfold normalizeScores
  rw [if_pos (filterPos_one_of_decomp pre post x hx hpre hpost),
    pyMax_decomp pre post x hx hpre hpost]
  have hne : ∀ y ∈ pre, y ≠ x := fun y hy =>
    ne_of_lt (lt_of_le_of_lt (le_of_not_lt (hpre y hy)) hx)
  dsimp only
  rw [pyindex_decomp x post pre hne, set_decomp 1 x post pre]

theorem normalizeScores_other {s : List ℚ}
    (h : ¬ (s.filter fun x => 0 < x).length = 1) :
    normalizeScores s = (1, s) := by
  unfold normalizeScores
  rw [if_neg h]

end NormalizeLemmas

theorem optFoldlM_nil {σ τ : Type} (f : σ → τ → Option σ) (init : σ) :
    List.foldlM f init [] = some init := rfl

theorem optFoldlM_cons {σ τ : Type} (f : σ → τ → Option σ) (init : σ)
    (a : τ) (l : List τ) :
    List.foldlM f init (a :: l) = f init a >>= fun s => List.foldlM f s l := rfl

theorem zip3With_map3 {α' β' γ' δ ε : Type} (f : α' → β' → γ' → δ)
    (g1 : ε → α') (g2 : ε → β') (g3 : ε → γ') (l : List ε) :
    zip3With f (l.map g1) (l.map g2) (l.map g3) =
      l.map fun x => f (g1 x) (g2 x) (g3 x) := by
  induction l with
  | nil => rfl
  | cons a t ih => simp [zip3With, ih]

section FoldLemmas

variable {α : Type} [DecidableEq α]

/-- With labels already discovered, a detection step never rediscovers:
it fails on a missing label or appends exactly this detection's parts. -/
theorem detStep_discovered {labels : List α} (hl : labels ≠ [])
    (prev : List (List (List ℚ))) (acc : ImgAcc) (d : Det α) :
    detStep labels prev acc d =
      match detParts labels d with
      | none => none
      | some p => some (labels, prev,
          ⟨acc.bboxes ++ [p.1], acc.scores ++ [p.2.2],
           acc.objectness ++ [p.2.1]⟩) := by
  cases labels with
  | nil => exact absurd rfl hl
  | cons a t =>
    simp only [detStep, detParts, List.isEmpty_cons, Bool.false_eq_true,
      if_false]
    cases lookupScores (a :: t) d.2 <;> rfl

/-- With labels already discovered, folding the detection loop over an
image appends exactly the per-detection parts to the accumulators. -/
theorem detFold_discovered {labels : List α} (hl : labels ≠ []) :
    ∀ (img : List (Det α)) (prev : List (List (List ℚ))) (acc : ImgAcc),
      img.foldlM (fun st det => detStep st.1 st.2.1 st.2.2 det)
          ((labels, prev, acc) :
            List α × List (List (List ℚ)) × ImgAcc) =
        match detPartsList labels img with
        | none => none
        | some ps => some (labels, prev,
            ⟨acc.bboxes ++ ps.map (fun p => p.1),
             acc.scores ++ ps.map (fun p => p.2.2),
             acc.objectness ++ ps.map (fun p => p.2.1)⟩)
  | [], prev, acc => by simp [detPartsList]
  | d :: rest, prev, acc => by
    rw [optFoldlM_cons]
    dsimp only
    rw [detStep_discovered hl prev acc d]
    cases hp : detParts labels d with
    | none => simp [detPartsList, hp]
    | some p =>
      show List.foldlM _ _ rest = _
      rw [detFold_discovered hl rest prev
        ⟨acc.bboxes ++ [p.1], acc.scores ++ [p.2.2], acc.objectness ++ [p.2.1]⟩]
      cases hps : detPartsList labels rest with
      | none => simp [detPartsList, hp, hps]
      | some ps => simp [detPartsList, hp, hps]

/-- With labels already discovered, processing one image appends exactly
its reference matrix (or fails where a lookup fails). -/
theorem imageStep_discovered {labels : List α} (hl : labels ≠ [])
    (prev : List (List (List ℚ))) (img : List (Det α)) :
    imageStep labels prev img =
      match imageRows labels img with
      | none => none
      | some rows => some (labels, prev ++ [rows]) := by
  unfold imageStep imageRows
  rw [detFold_discovered hl img prev ⟨[], [], []⟩]
  cases hps : detPartsList labels img with
  | none => rfl
  | some ps =>
    dsimp only
    simp only [List.nil_append]
    unfold format_detection
    rw [if_pos (by simp)]
    simp only [Option.getD_some]
    rw [zip3With_map3]

/-- With labels already discovered, folding over the remaining images
appends exactly their reference matrices. -/
theorem batchFold_discovered {labels : List α} (hl : labels ≠ []) :
    ∀ (dets : List (List (Det α))) (prev : List (List (List ℚ))),
      dets.foldlM (fun st img => imageStep st.1 st.2 img)
          ((labels, prev) : List α × List (List (List ℚ))) =
        match matsList labels dets with
        | none => none
        | some ms => some (labels, prev ++ ms)
  | [], prev => by simp [matsList]
  | img :: rest, prev => by
    rw [optFoldlM_cons]
    dsimp only
    rw [imageStep_discovered hl prev img]
    cases hr : imageRows labels img with
    | none => simp [matsList, hr]
    | some m =>
      show List.foldlM _ _ rest = _
      rw [batchFold_discovered hl rest (prev ++ [m])]
      cases hms : matsList labels rest with
      | none => simp [matsList, hr, hms]
      | some ms => simp [matsList, hr, hms]

theorem replicate_nil_eq {prev : List (List (List ℚ))}
    (h : ∀ m ∈ prev, m = []) :
    List.replicate prev.length ([] : List (List ℚ)) = prev := by
  induction prev with
  | nil => rfl
  | cons m rest ih =>
    rw [List.length_cons, List.replicate_succ,
      ih fun q hq => h q (List.mem_cons_of_mem m hq),
      h m (List.mem_cons_self m rest)]

section DiscoveryLemmas

variable {α : Type} [DecidableEq α]

/-- Processing an image with no detections appends an empty matrix and
changes nothing else. -/
theorem imageStep_nil (labels : List α) (prev : List (List (List ℚ))) :
    imageStep labels prev [] = some (labels, prev ++ [[]]) := rfl

/-- Unfolding of `imageStep` on a non-empty image. -/
theorem imageStep_cons (labels : List α) (prev : List (List (List ℚ)))
    (d : Det α) (ds : List (Det α)) :
    imageStep labels prev (d :: ds) =
      match detStep labels prev ⟨[], [], []⟩ d with
      | none => none
      | some st =>
        match ds.foldlM (fun st det => detStep st.1 st.2.1 st.2.2 det) st with
        | none => none
        | some (labels1, prev1, acc) =>
          match format_detection acc.bboxes acc.scores (some acc.objectness) with
          | none => none
          | some mat => some (labels1, prev1 ++ [mat]) := by
  unfold imageStep
  rw [optFoldlM_cons]
  cases detStep labels prev ⟨[], [], []⟩ d <;> rfl

/-- The first detection step with no labels known: the current detection's
keys become the labels, every previous (empty) matrix is rebuilt empty, the
score accumulator is reset, and the detection's own lookups succeed. -/
theorem detStep_discovery (prev : List (List (List ℚ))) (acc : ImgAcc)
    (d : Det α) :
    ∃ s, lookupScores (d.2.map Prod.fst) d.2 = some s ∧
      detStep ([] : List α) prev acc d =
        some (d.2.map Prod.fst, List.replicate prev.length [],
          { bboxes := acc.bboxes ++ [bboxRow d.1],
            scores := [(normalizeScores s).2],
            objectness := acc.objectness ++ [(normalizeScores s).1] }) := by
  obtain ⟨s, hs⟩ := lookupScores_keys d.2
  refine ⟨s, hs, ?_⟩
  simp only [detStep, List.isEmpty_nil, if_true, hs, List.nil_append]

/-- Processing the image that triggers label discovery (first detection's
score map non-empty, all previous matrices empty): the result is the
image's reference matrix under its own first detection's keys. -/
theorem imageStep_discovery {d : Det α} (hd : d.2 ≠ [])
    {prev : List (List (List ℚ))} (hprev : ∀ m ∈ prev, m = [])
    (ds : List (Det α)) :
    imageStep ([] : List α) prev (d :: ds) =
      match imageRows (d.2.map Prod.fst) (d :: ds) with
      | none => none
      | some rows => some (d.2.map Prod.fst, prev ++ [rows]) := by
  have hkeys : d.2.map Prod.fst ≠ [] := by
    intro h
    exact hd (List.map_eq_nil_iff.mp h)
  obtain ⟨s, hs, hstep⟩ := detStep_discovery prev ⟨[], [], []⟩ d
  rw [imageStep_cons, hstep, replicate_nil_eq hprev]
  dsimp only [List.nil_append]
  rw [detFold_discovered hkeys ds prev
    ⟨[bboxRow d.1], [(normalizeScores s).2], [(normalizeScores s).1]⟩]
  have hp : detParts (d.2.map Prod.fst) d =
      some (bboxRow d.1, (normalizeScores s).1, (normalizeScores s).2) := by
    simp [detParts, hs]
  unfold imageRows
  simp only [detPartsList, hp]
  cases hps : detPartsList (d.2.map Prod.fst) ds with
  | none => rfl
  | some ps =>
    dsimp only
    simp only [List.singleton_append]
    unfold format_detection
    rw [if_pos (by simp)]
    simp only [Option.getD_some]
    have : ∀ (l : List (List ℚ × ℚ × List ℚ)) (p : List ℚ × ℚ × List ℚ),
        zip3With (fun b o s => b ++ o :: s)
          (p.1 :: l.map fun q => q.1) (p.2.1 :: l.map fun q => q.2.1)
          (p.2.2 :: l.map fun q => q.2.2) =
          (p :: l).map fun q => q.1 ++ q.2.1 :: q.2.2 := by
      intro l p
      have := zip3With_map3 (fun b o s => b ++ o :: s)
        (fun q : List ℚ × ℚ × List ℚ => q.1) (fun q => q.2.1)
        (fun q => q.2.2) (p :: l)
      simpa using this
    simpa using this ps (bboxRow d.1, (normalizeScores s).1, (normalizeScores s).2)

/-- Folding the whole batch from the initial empty-label state, when every
detection's score map is non-empty: either some lookup fails, or there is a
single label list under which every image's matrix is its reference matrix. -/
theorem batchFold_from_empty (dets : List (List (Det α))) :
    (∀ img ∈ dets, ∀ d ∈ img, d.2 ≠ []) →
    ∀ prev : List (List (List ℚ)), (∀ m ∈ prev, m = []) →
    (dets.foldlM (fun st img => imageStep st.1 st.2 img)
        ((([] : List α), prev) : List α × List (List (List ℚ))) = none) ∨
    (∃ L ms, matsList L dets = some ms ∧
      dets.foldlM (fun st img => imageStep st.1 st.2 img)
        ((([] : List α), prev) : List α × List (List (List ℚ))) =
        some (L, prev ++ ms)) := by
  induction dets with
  | nil =>
    intro _ prev _
    right
    exact ⟨[], [], rfl, by simp [optFoldlM_nil]⟩
  | cons img rest ih =>
    intro hmaps prev hprev
    cases img with
    | nil =>
      have hrest := ih
        (fun i hi d hd => hmaps i (List.mem_cons_of_mem [] hi) d hd)
        (prev ++ [[]])
        (by
          intro m hm
          rcases List.mem_append.mp hm with h | h
          · exact hprev m h
          · simpa using h)
      rw [optFoldlM_cons]
      dsimp only
      rw [imageStep_nil]
      rcases hrest with h | ⟨L, ms, hms, heq⟩
      · left
        exact h
      · right
        refine ⟨L, [] :: ms, ?_, ?_⟩
        · have h0 : imageRows L ([] : List (Det α)) = some [] := rfl
          simp [matsList, h0, hms]
        · show List.foldlM _ _ rest = _
          rw [heq]
          simp
    | cons d ds =>
      have hd : d.2 ≠ [] :=
        hmaps (d :: ds) (List.mem_cons_self _ _) d (List.mem_cons_self d ds)
      have hkeys : d.2.map Prod.fst ≠ [] := by
        intro h
        exact hd (List.map_eq_nil_iff.mp h)
      rw [optFoldlM_cons]
      dsimp only
      rw [imageStep_discovery hd hprev ds]
      cases hr : imageRows (d.2.map Prod.fst) (d :: ds) with
      | none => left; rfl
      | some rows =>
        show (List.foldlM _ ((d.2.map Prod.fst, prev ++ [rows])) rest = none) ∨ _
        rw [batchFold_discovered hkeys rest (prev ++ [rows])]
        cases hms : matsList (d.2.map Prod.fst) rest with
        | none => left; rfl
        | some ms =>
          right
          refine ⟨d.2.map Prod.fst, rows :: ms, ?_, ?_⟩
          · simp [matsList, hr, hms]
          · show List.foldlM (fun st img => imageStep st.1 st.2 img)
              ((d.2.map Prod.fst, prev ++ [rows]) :
                List α × List (List (List ℚ))) rest = _
            rw [batchFold_discovered hkeys rest (prev ++ [rows]), hms]
            simp

/-- `matsList` success determines the length and every entry. -/
theorem matsList_pointwise {L : List α} :
    ∀ {dets : List (List (Det α))} {ms : List (List (List ℚ))},
      matsList L dets = some ms →
      ms.length = dets.length ∧
      ∀ i (hi : i < dets.length) (hm : i < ms.length),
        imageRows L dets[i] = some ms[i]
  | [], ms, h => by
    cases ms with
    | nil => exact ⟨rfl, by intro i hi; simp at hi⟩
    | cons m t => simp [matsList] at h
  | img :: rest, ms, h => by
    rw [matsList] at h
    cases hr : imageRows L img with
    | none => rw [hr] at h; cases h
    | some m =>
      rw [hr] at h
      cases hms : matsList L rest with
      | none => rw [hms] at h; cases h
      | some t =>
        rw [hms] at h
        cases h
        obtain ⟨hlen, hpt⟩ := matsList_pointwise hms
        refine ⟨by simp [hlen], ?_⟩
        intro i hi hm
        cases i with
        | zero => simpa using hr
        | succ j =>
          have hj : j < rest.length := by simpa using hi
          have hjm : j < t.length := by simpa using hm
          simpa using hpt j hj hjm

/-- `detPartsList` success preserves length. -/
theorem detPartsList_length {L : List α} :
    ∀ {img : List (Det α)} {ps : List (List ℚ × ℚ × List ℚ)},
      detPartsList L img = some ps → ps.length = img.length
  | [], ps, h => by
    cases h
    rfl
  | d :: rest, ps, h => by
    rw [detPartsList] at h
    cases hp : detParts L d with
    | none => rw [hp] at h; cases h
    | some p =>
      rw [hp] at h
      cases hps : detPartsList L rest with
      | none => rw [hps] at h; cases h
      | some t =>
        rw [hps] at h
        cases h
        simp [detPartsList_length hps]

/-- `imageRows` success preserves length: one row per detection. -/
theorem imageRows_length {L : List α} {img : List (Det α)}
    {m : List (List ℚ)} (h : imageRows L img = some m) :
    m.length = img.length := by
  rw [imageRows] at h
  cases hps : detPartsList L img with
  | none => rw [hps] at h; cases h
  | some ps =>
    rw [hps] at h
    cases h
    simp [detPartsList_length hps]

/-- Unfolding of the engine once assembly succeeded. -/
theorem dets_to_formatted_mat_eq {dets : List (List (Det α))}
    {labels : List α} {mats : List (List (List ℚ))} {maxd : ℕ}
    (hb : buildMats dets = some (labels, mats))
    (hm : pyMax (mats.map List.length) = some maxd) :
    dets_to_formatted_mat dets =
      some (labels.length,
        mats.map fun m =>
          m ++ List.replicate (maxd - m.length) (padRow labels.length)) := by
  unfold dets_to_formatted_mat
  rw [hb]
  dsimp only
  rw [hm]

section LabelLemmas

variable {α : Type} [DecidableEq α]

/-- A successful detection step leaves the labels unchanged, unless none
were known yet, in which case the current detection's keys become the
labels. -/
theorem detStep_labels {labels : List α} {prev : List (List (List ℚ))}
    {acc : ImgAcc} {d : Det α}
    {st : List α × List (List (List ℚ)) × ImgAcc}
    (h : detStep labels prev acc d = some st) :
    st.1 = if labels.isEmpty then d.2.map Prod.fst else labels := by
  unfold detStep at h
  dsimp only at h
  cases hlk : lookupScores
      (if labels.isEmpty then d.2.map Prod.fst else labels) d.2 with
  | none => rw [hlk] at h; cases h
  | some s => rw [hlk] at h; cases h; rfl

/-- A successful detection-loop fold computes as labels the keys of the
first detection with a non-empty score map (when none were known). -/
theorem detFold_labels :
    ∀ (img : List (Det α)) (labels : List α) (prev : List (List (List ℚ)))
      (acc : ImgAcc) (st : List α × List (List (List ℚ)) × ImgAcc),
      img.foldlM (fun st det => detStep st.1 st.2.1 st.2.2 det)
        ((labels, prev, acc) : List α × List (List (List ℚ)) × ImgAcc) =
          some st →
      st.1 = if labels.isEmpty then firstKeysDets img else labels
  | [], labels, prev, acc, st, h => by
    cases h
    cases hl : labels with
    | nil => rfl
    | cons a t => rfl
  | d :: rest, labels, prev, acc, st, h => by
    rw [optFoldlM_cons] at h
    cases hstep : detStep labels prev acc d with
    | none =>
      rw [hstep] at h
      cases h
    | some st1 =>
      rw [hstep] at h
      have h1 : List.foldlM (fun st det => detStep st.1 st.2.1 st.2.2 det)
          ((st1.1, st1.2.1, st1.2.2) :
            List α × List (List (List ℚ)) × ImgAcc) rest = some st := h
      have h2 := detFold_labels rest st1.1 st1.2.1 st1.2.2 st h1
      have h3 := detStep_labels hstep
      rw [firstKeysDets]
      cases hl : labels with
      | cons a t =>
        rw [hl] at h3
        simp only [List.isEmpty_cons] at h3 ⊢
        rw [h3] at h2
        simpa using h2
      | nil =>
        rw [hl] at h3
        simp only [List.isEmpty_nil, if_true] at h3 ⊢
        rw [h3] at h2
        by_cases hk : (d.2.map Prod.fst).isEmpty
        · rw [hk] at h2 ⊢
          simpa using h2
        · rw [eq_false_of_ne_true hk] at h2 ⊢
          simpa using h2

/-- A successful image step computes labels the same way. -/
theorem imageStep_labels {labels : List α} {prev : List (List (List ℚ))}
    {img : List (Det α)} {st : List α × List (List (List ℚ))}
    (h : imageStep labels prev img = some st) :
    st.1 = if labels.isEmpty then firstKeysDets img else labels := by
  unfold imageStep at h
  cases hf : img.foldlM (fun st det => detStep st.1 st.2.1 st.2.2 det)
      ((labels, prev, ⟨[], [], []⟩) :
        List α × List (List (List ℚ)) × ImgAcc) with
  | none => rw [hf] at h; cases h
  | some st1 =>
    rw [hf] at h
    have h1 := detFold_labels img labels prev ⟨[], [], []⟩ st1 hf
    cases st1 with
    | mk l1 rest1 =>
      cases rest1 with
      | mk p1 acc1 =>
        dsimp only at h
        cases hfmt : format_detection acc1.bboxes acc1.scores
            (some acc1.objectness) with
        | none => rw [hfmt] at h; cases h
        | some mat =>
          rw [hfmt] at h
          cases h
          exact h1

/-- A successful batch fold computes as final labels the keys of the first
detection in the batch with a non-empty score map. -/
theorem batchFold_labels :
    ∀ (dets : List (List (Det α))) (labels : List α)
      (prev : List (List (List ℚ))) (st : List α × List (List (List ℚ))),
      dets.foldlM (fun st img => imageStep st.1 st.2 img)
        ((labels, prev) : List α × List (List (List ℚ))) = some st →
      st.1 = if labels.isEmpty then firstKeysBatch dets else labels
  | [], labels, prev, st, h => by
    cases h
    cases labels with
    | nil => rfl
    | cons a t => rfl
  | img :: rest, labels, prev, st, h => by
    rw [optFoldlM_cons] at h
    cases hstep : imageStep labels prev img with
    | none =>
      rw [hstep] at h
      cases h
    | some st1 =>
      rw [hstep] at h
      have h1 : List.foldlM (fun st img => imageStep st.1 st.2 img)
          ((st1.1, st1.2) : List α × List (List (List ℚ))) rest = some st := h
      have h2 := batchFold_labels rest st1.1 st1.2 st h1
      have h3 := imageStep_labels hstep
      rw [firstKeysBatch]
      cases hl : labels with
      | cons a t =>
        rw [hl] at h3
        simp only [List.isEmpty_cons] at h3 ⊢
        rw [h3] at h2
        simpa using h2
      | nil =>
        rw [hl] at h3
        simp only [List.isEmpty_nil, if_true] at h3 ⊢
        rw [h3] at h2
        by_cases hk : (firstKeysDets img).isEmpty
        · rw [hk] at h2 ⊢
          simpa using h2
        · rw [eq_false_of_ne_true hk] at h2 ⊢
          simpa using h2

/-- The canonical labels a successful assembly ends with are the keys of
the first detection in the batch with a non-empty score map. -/
theorem buildMats_labels {dets : List (List (Det α))} {labels : List α}
    {mats : List (List (List ℚ))}
    (h : buildMats dets = some (labels, mats)) :
    labels = firstKeysBatch dets := by
  have := batchFold_labels dets [] [] (labels, mats) h
  simpa using this

end LabelLemmas

section MoreHelpers

variable {α : Type} [DecidableEq α]

/-- Folding a batch of images that all have zero detections keeps the
labels empty and appends one empty matrix per image. -/
theorem batchFold_all_nil :
    ∀ (dets : List (List (Det α))), (∀ img ∈ dets, img = []) →
      ∀ prev : List (List (List ℚ)),
      dets.foldlM (fun st img => imageStep st.1 st.2 img)
          ((([] : List α), prev) : List α × List (List (List ℚ))) =
        some ([], prev ++ dets.map fun _ => [])
  | [], _, prev => by simp [optFoldlM_nil]
  | img :: rest, h, prev => by
    have himg : img = [] := h img (List.mem_cons_self img rest)
    subst himg
    rw [optFoldlM_cons]
    dsimp only
    rw [imageStep_nil]
    show List.foldlM _ _ rest = _
    rw [batchFold_all_nil rest
      (fun i hi => h i (List.mem_cons_of_mem [] hi)) (prev ++ [[]])]
    simp

/-- The number of classes a successful run of the engine reports is the
number of keys of the first detection in the batch with a non-empty score
map. -/
theorem engine_numClasses {dets : List (List (Det α))} {C : ℕ}
    {slices : List (List (List ℚ))}
    (h : dets_to_formatted_mat dets = some (C, slices)) :
    C = (firstKeysBatch dets).length := by
  unfold dets_to_formatted_mat at h
  cases hbm : buildMats dets with
  | none => rw [hbm] at h; cases h
  | some p =>
    rw [hbm] at h
    dsimp only at h
    cases hpm : pyMax (p.2.map List.length) with
    | none => rw [hpm] at h; cases h
    | some maxd =>
      rw [hpm] at h
      have hl : p.1 = firstKeysBatch dets := by
        have : buildMats dets = some (p.1, p.2) := by rw [hbm]
        exact buildMats_labels this
      simp only [Option.some.injEq, Prod.mk.injEq] at h
      rw [← h.1, hl]

/-- The engine's padding row is four ones, a zero objectness, and one `1`
per class. -/
theorem padRow_eq (C : ℕ) :
    padRow C = [1, 1, 1, 1, 0] ++ List.replicate C 1 := by
  unfold padRow
  have h45 : 4 + 1 + C = 5 + C := by omega
  rw [h45, List.replicate_add]
  rfl

/-- Membership in a three-way pointwise combination comes from members of
the three lists. -/
theorem mem_zip3With {α' β' γ' δ : Type} {f : α' → β' → γ' → δ} :
    ∀ {l1 : List α'} {l2 : List β'} {l3 : List γ'} {x : δ},
      x ∈ zip3With f l1 l2 l3 →
      ∃ a b c, a ∈ l1 ∧ b ∈ l2 ∧ c ∈ l3 ∧ x = f a b c
  | [], _, _, x, h => by simp [zip3With] at h
  | _ :: _, [], _, x, h => by simp [zip3With] at h
  | _ :: _, _ :: _, [], x, h => by simp [zip3With] at h
  | a :: as, b :: bs, c :: cs, x, h => by
    rw [zip3With] at h
    rcases List.mem_cons.mp h with h2 | h2
    · exact ⟨a, b, c, List.mem_cons_self a as, List.mem_cons_self b bs,
        List.mem_cons_self c cs, h2⟩
    · obtain ⟨a1, b1, c1, ha, hb, hc, hx⟩ := mem_zip3With h2
      exact ⟨a1, b1, c1, List.mem_cons_of_mem a ha,
        List.mem_cons_of_mem b hb, List.mem_cons_of_mem c hc, hx⟩

/-- Every row of a successful `format_detection` result is a bbox row, an
objectness entry and a score row, concatenated in that order. -/
theorem format_detection_mem {bboxes scores : List (List ℚ)}
    {objectness : Option (List ℚ)} {ref : List (List ℚ)}
    (h : format_detection bboxes scores objectness = some ref) :
    ∀ r ∈ ref, ∃ b o s, b ∈ bboxes ∧ s ∈ scores ∧ r = b ++ o :: s := by
  unfold format_detection at h
  by_cases hc : bboxes.length = scores.length ∧
      scores.length = (objectness.getD (List.replicate bboxes.length 1)).length
  · rw [if_pos hc] at h
    cases h
    intro r hr
    obtain ⟨b, o, s, hb, ho, hs, hx⟩ := mem_zip3With hr
    exact ⟨b, o, s, hb, hs, hx⟩
  · rw [if_neg hc] at h
    cases h

end MoreHelpers

/-- Claim C8: for the empty batch (zero per-image detection sets), the
Batch Alignment Engine fails — Python's `max(num_dets)` raises on the
empty sequence — rather than returning a tensor. -/
theorem c8_empty_batch_fails {α : Type} [DecidableEq α] :
    dets_to_formatted_mat ([] : List (List (Det α))) = none := rfl

/-- Claim C9: for every non-empty batch in which every image has zero
detections, the engine succeeds and returns the `numImages × 0 × 5` tensor:
`numClasses = 0` (so each row would have `4 + 1 + 0 = 5` columns) and every
image's slice has zero rows. -/
theorem c9_all_empty_images {α : Type} [DecidableEq α]
    (dets : List (List (Det α))) (h1 : dets ≠ [])
    (h2 : ∀ img ∈ dets, img = []) :
    dets_to_formatted_mat dets =
      some (0, dets.map fun _ => ([] : List (List ℚ))) := by
  have hbm : buildMats dets = some ([], dets.map fun _ => []) := by
    unfold buildMats
    have := batchFold_all_nil dets h2 []
    simpa using this
  have hlen : ((dets.map fun _ => ([] : List (List ℚ))).map List.length) =
      dets.map fun _ => 0 := by
    simp [List.map_map, Function.comp]
  have hne : (dets.map fun _ => (0 : ℕ)) ≠ [] := by
    cases dets with
    | nil => exact absurd rfl h1
    | cons a t => simp
  obtain ⟨m, hm⟩ := pyMax_isSome hne
  have hm0 : m = 0 := by
    have hmem := pyMax_mem hm
    rw [List.mem_map] at hmem
    obtain ⟨x, _, hx⟩ := hmem
    exact hx.symm
  subst hm0
  have hpm : pyMax ((dets.map fun _ => ([] : List (List ℚ))).map List.length) =
      some 0 := by rw [hlen]; exact hm
  have := dets_to_formatted_mat_eq hbm hpm
  rw [this]
  simp [List.map_map, Function.comp]

/-- Claim C9 witness at the concrete two-image all-empty batch. -/
theorem c9_all_empty_images_witness :
    dets_to_formatted_mat ([[], []] : List (List (Det ℕ))) =
      some (0, [[], []]) := by
  have := c9_all_empty_images ([[], []] : List (List (Det ℕ)))
    (by decide) (by decide)
  simpa using this

/-- Claim C1 counterexample: the second image's detection lacks label `1`
of the canonical list `[0, 1]`; the engine raises (`KeyError`, modelled as
`none`) instead of substituting score 0 and producing the tensor. -/
theorem c1_counterexample :
    dets_to_formatted_mat ([[((0, 0, 1, 1), [(0, 2), (1, 3)])],
      [((0, 0, 1, 1), [(0, 2)])]] : List (List (Det ℕ))) = none := by decide

/-- Claim C1 (amended): when a detection processed after label discovery
has a score map lacking some canonical label, the engine's detection step
fails with the lookup error; score 0 is never substituted. -/
theorem c1_amended_missing_label_fails {α : Type} [DecidableEq α]
    (labels : List α) (prev : List (List (List ℚ))) (acc : ImgAcc)
    (b : ℚ × ℚ × ℚ × ℚ) (m : List (α × ℚ)) (l : α)
    (h1 : labels ≠ []) (h2 : l ∈ labels) (h3 : dictLookup m l = none) :
    detStep labels prev acc (b, m) = none := by
  cases labels with
  | nil => exact absurd rfl h1
  | cons a t =>
    simp only [detStep, List.isEmpty_cons, Bool.false_eq_true, if_false]
    rw [lookupScores_eq_none h2 h3]

/-- Claim C1 witness: a concrete missing-label detection step fails. -/
theorem c1_amended_missing_label_fails_witness :
    detStep [0, 1] [] ⟨[], [], []⟩ ((0, 0, 1, 1), [(0, 2)]) = none :=
  c1_amended_missing_label_fails [0, 1] [] ⟨[], [], []⟩ (0, 0, 1, 1)
    [(0, 2)] 1 (by decide) (by decide) (by decide)

/-- Claim C2 counterexample: the detection set consisting of one detection
with score list `[2]` normalizes to objectness `2` and scores `[1]`; that
set is in normalized form, yet applying the normalization again yields
objectness `1 ≠ 2`, so the normalization is not idempotent on detections. -/
theorem c2_counterexample :
    normalizeScores ((normalizeScores [2]).2) ≠ normalizeScores [2] := by
  decide

/-- Claim C2 (amended): the class-score component of single-dominant-class
normalization is idempotent — renormalizing a normalized detection set
leaves every class-score vector unchanged — but the objectness component is
not: renormalizing resets the objectness to 1 for any detection whose single
positive score was below 1. -/
theorem c2_amended_scores_idempotent (s : List ℚ) :
    (normalizeScores (normalizeScores s).2).2 = (normalizeScores s).2 := by
  by_cases h : (s.filter fun x => 0 < x).length = 1
  · obtain ⟨pre, x, post, hs, hx, hpre, hpost⟩ := filterPos_one_decomp h
    subst hs
    rw [normalizeScores_single pre post x hx hpre hpost]
    dsimp only
    rw [normalizeScores_single pre post 1 one_pos hpre hpost]
  · rw [normalizeScores_other h]
    dsimp only
    rw [normalizeScores_other h]

/-- Claim C4: for every detection whose class-score vector has exactly one
strictly positive entry `x` (all entries before and after it are `≤ 0`),
the normalization applied by the engine to the canonical-order score row
sets the objectness to `x` (overwriting the default 1) and that entry to
exactly 1, leaving all other entries unchanged; a score vector with zero or
with two or more strictly positive entries keeps objectness 1 and its
scores unchanged. -/
theorem c4_single_dominant_normalization (s : List ℚ) :
    (∀ pre x post, s = pre ++ x :: post → 0 < x →
      (∀ y ∈ pre, y ≤ 0) → (∀ y ∈ post, y ≤ 0) →
      normalizeScores s = (x, pre ++ 1 :: post)) ∧
    ((s.filter fun v => 0 < v).length ≠ 1 → normalizeScores s = (1, s)) := by
  constructor
  · intro pre x post hs hx hpre hpost
    subst hs
    exact normalizeScores_single pre post x hx
      (fun y hy => not_lt.mpr (hpre y hy)) (fun y hy => not_lt.mpr (hpost y hy))
  · exact normalizeScores_other

/-- Claim C4 witness: a concrete single-positive vector and a concrete
two-positive vector. -/
theorem c4_single_dominant_normalization_witness :
    normalizeScores [0, 3, 0] = (3, [0, 1, 0]) ∧
    normalizeScores [2, 2] = (1, [2, 2]) := by
  constructor
  · have := (c4_single_dominant_normalization [0, 3, 0]).1 [0] 3 [0]
      (by decide) (by decide) (by decide) (by decide)
    simpa using this
  · exact (c4_single_dominant_normalization [2, 2]).2 (by decide)

/-- Claim C10: once the canonical label list is fixed, labels of a
detection's score map that are not canonical are silently ignored: the
detection step gives the same result with or without them (so they
contribute nothing to the row), and if all canonical labels are present the
step succeeds. -/
theorem c10_extra_labels_ignored {α : Type} [DecidableEq α]
    (labels : List α) (prev : List (List (List ℚ))) (acc : ImgAcc)
    (b : ℚ × ℚ × ℚ × ℚ) (m extra : List (α × ℚ))
    (h1 : labels ≠ []) (hextra : ∀ p ∈ extra, p.1 ∉ labels) :
    detStep labels prev acc (b, m ++ extra) = detStep labels prev acc (b, m) ∧
    ((∀ l ∈ labels, (dictLookup m l).isSome) →
      (detStep labels prev acc (b, m ++ extra)).isSome) := by
  have key : lookupScores labels (m ++ extra) = lookupScores labels m :=
    lookupScores_append hextra
  have heq : detStep labels prev acc (b, m ++ extra) =
      detStep labels prev acc (b, m) := by
    cases labels with
    | nil => exact absurd rfl h1
    | cons a t =>
      simp only [detStep, List.isEmpty_cons, Bool.false_eq_true, if_false]
      rw [key]
  refine ⟨heq, ?_⟩
  intro hall
  rw [heq]
  obtain ⟨s, hs⟩ := lookupScores_isSome hall
  cases labels with
  | nil => exact absurd rfl h1
  | cons a t =>
    simp [detStep, hs]

/-- Claim C10 witness: an extra label `5` not in the canonical list `[0]`
changes nothing. -/
theorem c10_extra_labels_ignored_witness :
    detStep [0] [] ⟨[], [], []⟩ ((0, 0, 1, 1), [(0, 2), (5, 7)]) =
      detStep [0] [] ⟨[], [], []⟩ ((0, 0, 1, 1), [(0, 2)]) := by
  have := (c10_extra_labels_ignored [0] [] ⟨[], [], []⟩ (0, 0, 1, 1)
    [(0, 2)] [(5, 7)] (by decide) (by decide)).1
  simpa using this

/-- Claim C5 counterexample: image 0 is the first image in iteration order
with a non-empty detection set, and its detection's score map is empty, so
the claim predicts an empty canonical label list (`numClasses = 0`); the
engine instead takes the labels from image 1's detection and reports
`numClasses = 1`. -/
theorem c5_counterexample :
    dets_to_formatted_mat ([[((0, 0, 1, 1), [])],
        [((0, 0, 1, 1), [(7, 2)])]] : List (List (Det ℕ))) =
      some (1, [[[1, 1, 1, 1, 0, 1]], [[0, 0, 1, 1, 2, 1]]]) ∧
    (1 : ℕ) ≠ 0 := by
  constructor <;> decide

/-- Claim C5 (amended): the canonical class-label list equals the score-map
keys, in their natural iteration order, of the first detection — scanning
images in order and detections within an image in order — whose score map
is non-empty; if there is none, the label list is empty and numClasses = 0;
and the number of classes the engine reports is that list's length. -/
theorem c5_amended_first_nonempty_keys {α : Type} [DecidableEq α]
    {dets : List (List (Det α))} {C : ℕ} {slices : List (List (List ℚ))}
    (h : dets_to_formatted_mat dets = some (C, slices)) :
    C = (firstKeysBatch dets).length ∧
    ∀ labels mats, buildMats dets = some (labels, mats) →
      labels = firstKeysBatch dets := by
  refine ⟨engine_numClasses h, ?_⟩
  intro labels mats hbm
  exact buildMats_labels hbm

/-- Claim C5 witness at a concrete one-image batch. -/
theorem c5_amended_first_nonempty_keys_witness :
    (1 : ℕ) = (firstKeysBatch ([[((0, 0, 1, 1), [(3, 2)])]] :
        List (List (Det ℕ)))).length ∧
    ∀ labels mats,
      buildMats ([[((0, 0, 1, 1), [(3, 2)])]] : List (List (Det ℕ))) =
        some (labels, mats) →
      labels = firstKeysBatch ([[((0, 0, 1, 1), [(3, 2)])]] :
        List (List (Det ℕ))) := by
  have h : dets_to_formatted_mat
      ([[((0, 0, 1, 1), [(3, 2)])]] : List (List (Det ℕ))) =
      some (1, [[[0, 0, 1, 1, 2, 1]]]) := by decide
  exact c5_amended_first_nonempty_keys h

/-- Claim C6 counterexample: image 0 has one detection, which equals
`maxDetections = 1`, yet its slice consists of one padding row (its
detection was discarded at label discovery), contradicting that images
achieving `maxDetections` get zero padding rows built from their
detections. -/
theorem c6_counterexample :
    dets_to_formatted_mat ([[((6, 6, 7, 7), [])],
        [((8, 8, 9, 9), [(0, 2)])]] : List (List (Det ℕ))) =
      some (1, [[[1, 1, 1, 1, 0, 1]], [[8, 8, 9, 9, 2, 1]]]) ∧
    ([1, 1, 1, 1, 0, 1] : List ℚ).take 4 ≠ [6, 6, 7, 7] := by
  constructor <;> decide

/-- Claim C6 (amended): for every batch whose assembly succeeds with a
non-empty matrix list, `maxDetections` is the maximum row count of the
per-image assembled matrices (which equals the image's detection count
except for images whose pre-discovery rows were discarded); every slice is
its matrix padded to exactly `maxDetections` rows, a matrix already at
`maxDetections` rows gets zero padding rows, and the padding row is four
ones, objectness 0 at column 4, and one `1` per class. -/
theorem c6_amended_padding {α : Type} [DecidableEq α]
    {dets : List (List (Det α))} {labels : List α}
    {mats : List (List (List ℚ))}
    (hb : buildMats dets = some (labels, mats)) (hne : mats ≠ []) :
    ∃ maxd, pyMax (mats.map List.length) = some maxd ∧
      dets_to_formatted_mat dets =
        some (labels.length, mats.map fun m =>
          m ++ List.replicate (maxd - m.length) (padRow labels.length)) ∧
      (∀ m ∈ mats,
        (m ++ List.replicate (maxd - m.length)
          (padRow labels.length)).length = maxd) ∧
      (∀ m ∈ mats, m.length = maxd →
        m ++ List.replicate (maxd - m.length) (padRow labels.length) = m) ∧
      padRow labels.length = [1, 1, 1, 1, 0] ++
        List.replicate labels.length 1 := by
  have hmapne : mats.map List.length ≠ [] := by
    intro hcontra
    exact hne (List.map_eq_nil_iff.mp hcontra)
  obtain ⟨maxd, hmax⟩ := pyMax_isSome hmapne
  refine ⟨maxd, hmax, dets_to_formatted_mat_eq hb hmax, ?_, ?_, padRow_eq _⟩
  · intro m hm
    have hle : m.length ≤ maxd :=
      le_pyMax hmax m.length (List.mem_map_of_mem List.length hm)
    simp only [List.length_append, List.length_replicate]
    omega
  · intro m hm hlen
    rw [hlen, Nat.sub_self]
    simp

/-- Claim C6 witness at a concrete one-image batch. -/
theorem c6_amended_padding_witness :
    ∃ maxd,
      pyMax (([[[0, 0, 1, 1, 2, 1]]] : List (List (List ℚ))).map
        List.length) = some maxd ∧
      dets_to_formatted_mat
          ([[((0, 0, 1, 1), [(0, 2)])]] : List (List (Det ℕ))) =
        some (([0] : List ℕ).length,
          ([[[0, 0, 1, 1, 2, 1]]] : List (List (List ℚ))).map fun m =>
            m ++ List.replicate (maxd - m.length)
              (padRow ([0] : List ℕ).length)) ∧
      (∀ m ∈ ([[[0, 0, 1, 1, 2, 1]]] : List (List (List ℚ))),
        (m ++ List.replicate (maxd - m.length)
          (padRow ([0] : List ℕ).length)).length = maxd) ∧
      (∀ m ∈ ([[[0, 0, 1, 1, 2, 1]]] : List (List (List ℚ))),
        m.length = maxd →
        m ++ List.replicate (maxd - m.length)
          (padRow ([0] : List ℕ).length) = m) ∧
      padRow ([0] : List ℕ).length = [1, 1, 1, 1, 0] ++
        List.replicate ([0] : List ℕ).length 1 :=
  c6_amended_padding (by decide) (by decide)

/-- Claim C7 counterexample: the caller supplies a reference score matrix
with 2 columns while the black-box detections on the occluded images carry
3 classes; `_generate` builds the reference matrix and the occluded tensor
with different column layouts (widths 7 and 8), so the label ordering is
not computed jointly and the columns do not have identical meanings. -/
theorem c7_counterexample :
    generate_mats [[0, 0, 1, 1]] [[2, 3]] none
        ([[((0, 0, 1, 1), [(0, 5), (1, 6), (2, 7)])]] :
          List (List (Det ℕ))) =
      some ([[0, 0, 1, 1, 1, 2, 3]], 3, [[[0, 0, 1, 1, 1, 5, 6, 7]]]) ∧
    ([0, 0, 1, 1, 1, 2, 3] : List ℚ).length ≠
      ([0, 0, 1, 1, 1, 5, 6, 7] : List ℚ).length := by
  constructor <;> decide

/-- Claim C7 (amended): `_generate` computes the two layouts independently:
the reference matrix's rows have width `4 + 1 + W` where `W` is the width
of the caller-supplied score matrix, while the occluded tensor's class
count is discovered from the occluded detections alone (the keys of their
first detection with a non-empty score map); no joint label ordering is
computed, so the layouts agree only if the caller matches the detector. -/
theorem c7_amended_independent_layouts {α : Type} [DecidableEq α]
    {bboxes scores : List (List ℚ)} {obj : Option (List ℚ)}
    {pert : List (List (Det α))} {ref : List (List ℚ)} {C : ℕ}
    {slices : List (List (List ℚ))} {W : ℕ}
    (hb : ∀ b ∈ bboxes, b.length = 4) (hsc : ∀ s ∈ scores, s.length = W)
    (h : generate_mats bboxes scores obj pert = some (ref, C, slices)) :
    (∀ r ∈ ref, r.length = 4 + 1 + W) ∧
    C = (firstKeysBatch pert).length := by
  unfold generate_mats at h
  cases hf : format_detection bboxes scores obj with
  | none => rw [hf] at h; cases h
  | some ref0 =>
    rw [hf] at h
    dsimp only at h
    cases hp : dets_to_formatted_mat pert with
    | none => rw [hp] at h; cases h
    | some p =>
      obtain ⟨C0, s0⟩ := p
      rw [hp] at h
      simp only [Option.some.injEq, Prod.mk.injEq] at h
      obtain ⟨href, hC, hsl⟩ := h
      constructor
      · intro r hr
        rw [← href] at hr
        obtain ⟨b, o, s, hbm, hsm, hx⟩ := format_detection_mem hf r hr
        subst hx
        simp only [List.length_append, List.length_cons]
        rw [hb b hbm, hsc s hsm]
        omega
      · rw [← hC]
        exact engine_numClasses hp

/-- Claim C7 witness at a concrete consistent run. -/
theorem c7_amended_independent_layouts_witness :
    (∀ r ∈ ([[0, 0, 1, 1, 1, 2]] : List (List ℚ)), r.length = 4 + 1 + 1) ∧
    (1 : ℕ) = (firstKeysBatch ([[((0, 0, 1, 1), [(4, 3)])]] :
      List (List (Det ℕ)))).length :=
  @c7_amended_independent_layouts ℕ _ [[0, 0, 1, 1]] [[2]] none
    [[((0, 0, 1, 1), [(4, 3)])]] [[0, 0, 1, 1, 1, 2]] 1
    [[[0, 0, 1, 1, 3, 1]]] 1 (by decide) (by decide) (by decide)

/-- Claim C3 counterexample: image 0's single detection (bbox (2,2,3,3),
empty score map) is silently dropped: when image 1's detection triggers
label discovery, image 0's already-assembled matrix is replaced by an empty
one, and its slice in the output is a padding row, not a row built from its
detection. -/
theorem c3_counterexample :
    dets_to_formatted_mat ([[((2, 2, 3, 3), [])],
        [((4, 4, 5, 5), [(0, 2)])]] : List (List (Det ℕ))) =
      some (1, [[[1, 1, 1, 1, 0, 1]], [[4, 4, 5, 5, 2, 1]]]) ∧
    ([1, 1, 1, 1, 0, 1] : List ℚ).take 4 ≠ [2, 2, 3, 3] := by
  constructor <;> decide

/-- Claim C3 (amended): for every batch in which every detection's score
map is non-empty (so no detection row can precede label discovery in an
earlier image), a successful run drops nothing: there is one canonical
label list under which every image contributes exactly one matrix, with one
row per detection built from that detection, and the first `D_i` rows of
slice `i` are exactly those rows; without that proviso, rows assembled for
earlier images before label discovery are discarded and replaced by
padding. -/
theorem c3_amended_no_silent_drop {α : Type} [DecidableEq α]
    {dets : List (List (Det α))} {C : ℕ} {slices : List (List (List ℚ))}
    (hmaps : ∀ img ∈ dets, ∀ d ∈ img, d.2 ≠ [])
    (hres : dets_to_formatted_mat dets = some (C, slices)) :
    ∃ labels mats, buildMats dets = some (labels, mats) ∧
      labels.length = C ∧ mats.length = dets.length ∧
      slices.length = dets.length ∧
      ∀ i (hi : i < dets.length) (hm : i < mats.length)
        (hs : i < slices.length),
        imageRows labels dets[i] = some mats[i] ∧
        mats[i].length = dets[i].length ∧
        slices[i].take dets[i].length = mats[i] := by
  unfold dets_to_formatted_mat at hres
  cases hbm : buildMats dets with
  | none => rw [hbm] at hres; cases hres
  | some p =>
    obtain ⟨labels, mats⟩ := p
    rw [hbm] at hres
    dsimp only at hres
    cases hpm : pyMax (mats.map List.length) with
    | none => rw [hpm] at hres; cases hres
    | some maxd =>
      rw [hpm] at hres
      simp only [Option.some.injEq, Prod.mk.injEq] at hres
      obtain ⟨hC, hslices⟩ := hres
      subst hC
      subst hslices
      have hbm' : dets.foldlM (fun st img => imageStep st.1 st.2 img)
          ((([] : List α), ([] : List (List (List ℚ)))) :
            List α × List (List (List ℚ))) = some (labels, mats) := hbm
      rcases batchFold_from_empty dets hmaps [] (by simp) with
        hnone | ⟨L, ms, hms, heq⟩
      · rw [hbm'] at hnone; cases hnone
      · rw [hbm'] at heq
        simp only [Option.some.injEq, Prod.mk.injEq, List.nil_append] at heq
        obtain ⟨hL, hmseq⟩ := heq
        subst hL
        subst hmseq
        obtain ⟨hlen_ms, hpt⟩ := matsList_pointwise hms
        refine ⟨labels, mats, rfl, rfl, hlen_ms, ?_, ?_⟩
        · simp [hlen_ms]
        · intro i hi hm hs
          have hrow := hpt i hi hm
          have hrlen := imageRows_length hrow
          refine ⟨hrow, hrlen, ?_⟩
          simp only [List.getElem_map]
          rw [← hrlen, List.take_left]

/-- Claim C3 witness at a concrete two-image batch (all score maps
non-empty). -/
theorem c3_amended_no_silent_drop_witness :
    ∃ (labels : List ℕ) (mats : List (List (List ℚ))),
      buildMats ([[((0, 0, 1, 1), [(0, 2)])], []] : List (List (Det ℕ))) =
        some (labels, mats) ∧
      labels.length = 1 ∧
      mats.length =
        ([[((0, 0, 1, 1), [(0, 2)])], []] : List (List (Det ℕ))).length ∧
      ([[[0, 0, 1, 1, 2, 1]], [[1, 1, 1, 1, 0, 1]]] :
          List (List (List ℚ))).length =
        ([[((0, 0, 1, 1), [(0, 2)])], []] : List (List (Det ℕ))).length ∧
      ∀ i (hi : i <
          ([[((0, 0, 1, 1), [(0, 2)])], []] :
            List (List (Det ℕ))).length)
        (hm : i < mats.length)
        (hs : i <
          ([[[0, 0, 1, 1, 2, 1]], [[1, 1, 1, 1, 0, 1]]] :
            List (List (List ℚ))).length),
        imageRows labels
            ([[((0, 0, 1, 1), [(0, 2)])], []] :
              List (List (Det ℕ)))[i] = some mats[i] ∧
        mats[i].length =
          ([[((0, 0, 1, 1), [(0, 2)])], []] :
            List (List (Det ℕ)))[i].length ∧
        ([[[0, 0, 1, 1, 2, 1]], [[1, 1, 1, 1, 0, 1]]] :
            List (List (List ℚ)))[i].take
          ([[((0, 0, 1, 1), [(0, 2)])], []] :
            List (List (Det ℕ)))[i].length = mats[i] :=
  c3_amended_no_silent_drop (by decide) (by decide)

